import Mathlib

/-!
Verification of the contree-mcp broker core against its specification.

This file shallowly embeds the parts of the Python source that the checked
properties are about:

* `ContreeClient._stream_request` (src/contree_mcp/client.py) — HTTP dispatch
  with the 4xx/5xx branches;
* `ContreeClient.check_file_exists` / `ContreeClient.file_exists` — HEAD-based
  existence checks backed by the general cache;
* `ContreeClient.upload_file` / `ContreeClient.get_file_by_hash` —
  content-addressed upload coalescing;
* `Cache.list_entries` with its `SAFE_FIELD_PATTERN` filter-key validation
  (src/contree_mcp/cache.py);
* `ContreeClient._cache_lineage` — the lineage recorder;
* `FileCache._update_synced_directory`, `FileCache.sync_directory` and
  `FileCache.traverse_directory_files` (src/contree_mcp/file_cache.py);
* `async_file_writer` (src/contree_mcp/tools/download.py) and the `rsync`
  tool (src/contree_mcp/tools/rsync.py).

Python byte strings are modelled as `List Nat`, JSON payloads by small
dedicated structures covering exactly the fields the embedded code reads and
writes, and network traffic by explicit request traces so that statements
like "no request is issued" are expressible.
-/

namespace ContreeSpec

/-! ## Stream request dispatch (`ContreeClient._stream_request`)

`_stream_request` loops `for _ in range(retry_count)` over attempts; on each
attempt it inspects the response status:

```
if response.status_code >= 400: ... raise ContreeError(error_msg, status)
if response.status_code >= 500: ... await asyncio.sleep(retry_time); continue
... yield StreamResponse(...); return
```

The server is modelled as a function from the attempt index to the HTTP
status it answers with.  The result is either the status of the yielded
response, the `ContreeError` carrying the status of a `>= 400` response, or
`exhausted` for the case in which all attempts were consumed without a yield
(in Python the generator would end without yielding and the context manager
machinery would raise `RuntimeError`). -/

/-- Outcome of `_stream_request`: the error channel of the embedded code. -/
inductive StreamErr where
  /-- `raise ContreeError(error_msg, response.status_code)` -/
  | remote (status : Nat) : StreamErr
  /-- the `for` loop over `range(retry_count)` finished without yielding -/
  | exhausted : StreamErr
  deriving Repr, DecidableEq

/-- One attempt step of `_stream_request`: `attempt` is the index in
`range(retry_count)`, `remaining` the number of loop iterations left,
`responses` the status the server answers on each attempt. -/
def streamRequestFrom (responses : Nat → Nat) : Nat → Nat → Except StreamErr Nat
  | 0, _ => .error .exhausted
  | remaining + 1, attempt =>
    let status := responses attempt
    if status ≥ 400 then .error (.remote status)
    else if status ≥ 500 then streamRequestFrom responses remaining (attempt + 1)
    else .ok status

/-- `ContreeClient._stream_request` with its default `retry_count = 5`:
returns the status of the response it yields, or the error it raises. -/
def streamRequest (responses : Nat → Nat) (retryCount : Nat := 5) : Except StreamErr Nat :=
  streamRequestFrom responses retryCount 0

/-! ## General-cache-backed existence checks

`check_file_exists` and `file_exists` (src/contree_mcp/client.py) both do:
look the key up in the cache (`Cache.get` with its default `ttl = -1`, so no
expiry); on a hit return the cached `exists` flag without touching the
network; on a miss perform a HEAD request, mapping any raised exception to
`exists = False`, store `{"exists": exists}` and return it.

The general cache rows these functions touch carry a single boolean payload;
`updatedAt` models the row's `updated_at` timestamp so that the TTL logic of
`Cache.get` can be stated. -/

/-- A `(key, {"exists": bool}, updated_at)` row of the general cache, as read
and written by the existence checks. -/
structure ExistsRow where
  key : String
  exists? : Bool
  updatedAt : Nat
  deriving Repr, DecidableEq

/-- The rows of one kind (`file_exists_by_uuid` or `file_exists`). -/
abbrev ExistsCache := List ExistsRow

/-- `Cache.get` specialised to these rows: returns the row unless
`ttl > 0` and `now - updated_at > ttl` (`Cache.get`, src/contree_mcp/cache.py).
`check_file_exists` and `file_exists` call it with the default `ttl = -1`. -/
def existsCacheGet (cache : ExistsCache) (key : String) (now : Nat) (ttl : Int := -1) :
    Option ExistsRow :=
  match cache.find? (fun row => row.key = key) with
  | none => none
  | some row => if ttl > 0 ∧ (now : Int) - row.updatedAt > ttl then none else some row

/-- `Cache.put` specialised to these rows: upsert of the boolean payload with
a refreshed `updated_at`.  A new row is placed at the head of the list; its
position is immaterial because `(kind, key)` is unique in the table. -/
def existsCachePut (cache : ExistsCache) (key : String) (val : Bool) (now : Nat) : ExistsCache :=
  if cache.any (fun row => row.key = key) then
    cache.map (fun row => if row.key = key then { row with exists? := val, updatedAt := now } else row)
  else
    ⟨key, val, now⟩ :: cache

/-- The HEAD request either completes with an HTTP status or raises. -/
abbrev HeadResult := Except Unit Nat

/-- `ContreeClient.check_file_exists` (and, with the `"<image>:<path>"` key,
`ContreeClient.file_exists`): result, updated cache, and whether a HEAD
request was issued. -/
def checkFileExists (cache : ExistsCache) (key : String) (head : HeadResult) (now : Nat) :
    Bool × ExistsCache × Bool :=
  match existsCacheGet cache key now with
  | some row => (row.exists?, cache, false)
  | none =>
    let ex := match head with
      | .ok status => status == 200
      | .error _ => false
    (ex, existsCachePut cache key ex now, true)

/-- `ContreeClient.file_exists` builds its cache key as `f"{image_uuid}:{path}"`
and otherwise runs the same lookup/HEAD/store sequence as
`check_file_exists`. -/
def fileExists (cache : ExistsCache) (imageUuid path : String) (head : HeadResult) (now : Nat) :
    Bool × ExistsCache × Bool :=
  checkFileExists cache (imageUuid ++ ":" ++ path) head now

/-! ## Content-addressed uploads
(`ContreeClient.upload_file` / `ContreeClient.get_file_by_hash`)

`upload_file` reads the content, computes its SHA-256 hex digest, and calls
`get_file_by_hash`; if that returns a file, it is returned without any
network traffic beyond what `get_file_by_hash` itself did; otherwise the
bytes are POSTed to `/files` and the response is cached under the digest.
`get_file_by_hash` is cache-first on `(kind=file_by_hash, key=sha256)`; a
cached `{"not_found": true}` sentinel short-circuits to `None`; on a cache
miss it GETs `/files?sha256=…`, caching either the response or, on 404, the
sentinel; other HTTP errors propagate.

Byte contents are `List Nat`; the SHA-256 hex digest is a parameter
`hashHex` of the model (the claims only use that hashing is a function of
the content).  Network traffic is recorded as an explicit request trace. -/

/-- `FileResponse` (src/contree_mcp/backend_types.py) as `upload_file` and
`get_file_by_hash` use it: the server-assigned uuid and the content hash. -/
structure FileResponse where
  uuid : String
  sha256 : String
  deriving Repr, DecidableEq

/-- The JSON payload stored under `(kind=file_by_hash, key=sha256)`: either a
cached `FileResponse` or the `{"not_found": true}` sentinel. -/
inductive FileByHashVal where
  | resp (fr : FileResponse) : FileByHashVal
  | notFound : FileByHashVal
  deriving Repr, DecidableEq

/-- The `file_by_hash` rows of the general cache. -/
abbrev FileHashCache := List (String × FileByHashVal)

/-- `Cache.get` on the `file_by_hash` kind (no TTL is ever passed here). -/
def fhGet (cache : FileHashCache) (key : String) : Option FileByHashVal :=
  (cache.find? (fun e => e.1 = key)).map (fun e => e.2)

/-- `Cache.put` on the `file_by_hash` kind: SQL upsert — replace the row with
this key in place, or insert a new row. -/
def fhPut : FileHashCache → String → FileByHashVal → FileHashCache
  | [], key, val => [(key, val)]
  | e :: rest, key, val =>
    if e.1 = key then (key, val) :: rest else e :: fhPut rest key val

/-- A network request issued against the `/files` endpoint family. -/
inductive NetRequest where
  | getFiles (sha256 : String) : NetRequest
  | postFiles (content : List Nat) : NetRequest
  deriving Repr, DecidableEq

/-- The remote `/files` endpoints: `GET /files?sha256=…` answers a file or an
HTTP error status (404 when the content is unknown), `POST /files` stores the
bytes and answers a `FileResponse`. -/
structure FileServer where
  getBySha : String → Except Nat FileResponse
  post : List Nat → FileResponse

/-- `ContreeClient.get_file_by_hash`: result, updated cache, request trace. -/
def getFileByHash (server : FileServer) (cache : FileHashCache) (sha : String) :
    Except Nat (Option FileResponse) × FileHashCache × List NetRequest :=
  match fhGet cache sha with
  | some (.resp fr) => (.ok (some fr), cache, [])
  | some .notFound => (.ok none, cache, [])
  | none =>
    match server.getBySha sha with
    | .ok fr => (.ok (some fr), fhPut cache sha (.resp fr), [.getFiles sha])
    | .error status =>
      if status = 404 then (.ok none, fhPut cache sha .notFound, [.getFiles sha])
      else (.error status, cache, [.getFiles sha])

/-- `ContreeClient.upload_file`: hash the content, consult
`get_file_by_hash`, POST only when the file is unknown, and cache the POST
response under the digest. -/
def uploadFile (hashHex : List Nat → String) (server : FileServer)
    (cache : FileHashCache) (content : List Nat) :
    Except Nat FileResponse × FileHashCache × List NetRequest :=
  let sha := hashHex content
  match getFileByHash server cache sha with
  | (.ok (some fr), cache', trace) => (.ok fr, cache', trace)
  | (.ok none, cache', trace) =>
    let fr := server.post content
    (.ok fr, fhPut cache' sha (.resp fr), trace ++ [.postFiles content])
  | (.error status, cache', trace) => (.error status, cache', trace)

/-! ## `Cache.list_entries` filter-key validation (src/contree_mcp/cache.py)

```
SAFE_FIELD_PATTERN = re.compile(r"^[a-zA-Z_][a-zA-Z0-9_.]*$")
...
for key in field_filter:
    if not SAFE_FIELD_PATTERN.match(key):
        raise ValueError(f"Invalid filter field name: ...")
json_query = " AND ".join([f"json_extract(data, ...) = ?" for k, _ in ...])
query = f"SELECT * FROM cache WHERE kind = ? ... ORDER BY created_at DESC LIMIT ?"
```

The validation loop runs before the query string is built, so a rejected key
fails the call (`ValueError`, the code's representation of the spec's
`InvalidArgument`) with no SQL executed.  Python's `re.match` with a
`$`-anchored pattern succeeds both on an exact match and when the string is
an exact match followed by one trailing `'\n'` (`$` matches just before a
final newline); both behaviours are embedded separately so they can be
compared. -/

/-- Character class `[a-zA-Z_]` of `SAFE_FIELD_PATTERN`. -/
def isSafeFirst (c : Char) : Bool := c.isAlpha || c = '_'

/-- Character class `[a-zA-Z0-9_.]` of `SAFE_FIELD_PATTERN`. -/
def isSafeRest (c : Char) : Bool := c.isAlphanum || c = '_' || c = '.'

/-- `[a-zA-Z_][a-zA-Z0-9_.]*` consuming the whole character list. -/
def specSafeList : List Char → Bool
  | [] => false
  | c :: cs => isSafeFirst c && cs.all isSafeRest

/-- The spec's reading of `^[A-Za-z_][A-Za-z0-9_.]*$`: the whole key, first
character to last, lies in the safe identifier/dot alphabet. -/
def specSafeKey (s : String) : Bool := specSafeList s.data

/-- `SAFE_FIELD_PATTERN.match(key)` as Python evaluates it: `$` also matches
just before a newline that ends the string, so a safe key followed by one
trailing `'\n'` passes. -/
def safeFieldMatch (s : String) : Bool :=
  specSafeList s.data ||
    (s.data.getLast? == some '\n' && specSafeList s.data.dropLast)

/-- A general-cache row as `list_entries` sees it: the JSON `data` payload is
an object whose top-level fields `json_extract(data, '$.k')` reads. -/
structure JsonCacheEntry where
  id : Nat
  kind : String
  key : String
  data : List (String × String)
  createdAt : Nat
  deriving Repr, DecidableEq

/-- `raise ValueError(f"Invalid filter field name: {key!r}")` — the
`InvalidArgument` failure of the spec, carrying the offending key. -/
inductive ListEntriesErr where
  | invalidArgument (key : String) : ListEntriesErr
  deriving Repr, DecidableEq

/-- `Cache.list_entries`: validate every filter key, then run the query
(`WHERE kind = ? AND json_extract(...) = ? ... ORDER BY created_at DESC
LIMIT ?`).  Returns the result, the cache contents afterwards, and whether a
query was executed — rejection happens before any SQL is built or run, so in
that case the flag is `false` and the rows are untouched. -/
def listEntries (cache : List JsonCacheEntry) (kind : String) (lim : Nat)
    (fieldFilter : List (String × String)) :
    Except ListEntriesErr (List JsonCacheEntry) × List JsonCacheEntry × Bool :=
  match fieldFilter.find? (fun kv => !safeFieldMatch kv.1) with
  | some kv => (.error (.invalidArgument kv.1), cache, false)
  | none =>
    let rows := cache.filter (fun e =>
      e.kind = kind && fieldFilter.all (fun kv => e.data.lookup kv.1 == some kv.2))
    (.ok ((rows.mergeSort (fun a b => b.createdAt ≤ a.createdAt)).take lim), cache, true)

/-- The claim's first injection payload, `x') OR 1=1 --`. -/
def sqlInjectionKey1 : String :=
  String.mk ['x', Char.ofNat 39, ')', ' ', 'O', 'R', ' ', '1', '=', '1', ' ', '-', '-']

/-- The claim's second injection payload, `x'); DROP TABLE cache; --`. -/
def sqlInjectionKey2 : String :=
  String.mk ['x', Char.ofNat 39, ')', ';', ' ', 'D', 'R', 'O', 'P', ' ', 'T', 'A', 'B', 'L', 'E',
    ' ', 'c', 'a', 'c', 'h', 'e', ';', ' ', '-', '-']

/-! ## The lineage recorder (`ContreeClient._cache_lineage`)

`_poll_until_complete` invokes `_cache_lineage(operation_id, kind, result,
metadata)` once the polled operation reaches a terminal status.  The recorder
writes at most one general-cache row under `(kind="image",
key=result_image)`:

* for a successful `instance` run whose result image differs from the input
  image, `data = {parent_image, operation_id, command}` and `parent_id` is
  the id of the input image's lineage row (or `None` if that row is absent);
* for a successful `image_import`, `data = {operation_id, registry_url, tag,
  is_import: True}` and `parent_id = None`;
* in every other case (non-`SUCCESS` status, missing images, or result image
  equal to input image) it writes nothing.

The general cache is modelled with the lineage payload fields the recorder
reads and writes; `put` is the SQL upsert of `Cache.put` (`UNIQUE(kind,
key)`, update in place preserving `id`, insert otherwise). -/

/-- Operation status vocabulary (exact strings in the source:
`PENDING`, `EXECUTING`, `SUCCESS`, `FAILED`, `CANCELLED`). -/
inductive OperationStatus where
  | pending | executing | success | failed | cancelled
  deriving Repr, DecidableEq

/-- `OperationStatus.is_terminal`. -/
def OperationStatus.isTerminal : OperationStatus → Bool
  | .success | .failed | .cancelled => true
  | _ => false

/-- The fields of the JSON `data` payload of an image lineage row. -/
structure LineageData where
  parentImage : Option String := none
  operationId : Option String := none
  command : Option String := none
  registryUrl : Option String := none
  tag : Option String := none
  isImport : Bool := false
  deriving Repr, DecidableEq

/-- A general-cache row as the lineage recorder sees it. -/
structure LineageEntry where
  id : Nat
  kind : String
  key : String
  parentId : Option Nat
  data : LineageData
  deriving Repr, DecidableEq

/-- Does the row live at `(kind, key)`? -/
def matchesKey (kind key : String) (e : LineageEntry) : Bool :=
  e.kind == kind && e.key == key

/-- General cache state: rows plus the next `AUTOINCREMENT` id. -/
structure LineageCache where
  entries : List LineageEntry
  nextId : Nat
  deriving Repr, DecidableEq

/-- `Cache.get(kind, key)` (no TTL is passed by the recorder). -/
def LineageCache.get (c : LineageCache) (kind key : String) : Option LineageEntry :=
  c.entries.find? (matchesKey kind key)

/-- The row list after `Cache.put`: replace the `(kind, key)` row in place
preserving its `id` (`ON CONFLICT ... DO UPDATE`), or insert a fresh row. -/
def putEntries : List LineageEntry → String → String → LineageData → Option Nat → Nat →
    List LineageEntry
  | [], kind, key, data, parentId, nextId => [⟨nextId, kind, key, parentId, data⟩]
  | e :: rest, kind, key, data, parentId, nextId =>
    if matchesKey kind key e then ⟨e.id, kind, key, parentId, data⟩ :: rest
    else e :: putEntries rest kind key data parentId nextId

/-- `Cache.put(kind, key, data, parent_id)` on the cache state. -/
def LineageCache.put (c : LineageCache) (kind key : String) (data : LineageData)
    (parentId : Option Nat) : LineageCache :=
  { entries := putEntries c.entries kind key data parentId c.nextId,
    nextId := if c.entries.any (matchesKey kind key) then c.nextId else c.nextId + 1 }

/-- The two tracked operation families (`OperationTrackingKind`). -/
inductive OperationTrackingKind where
  | instanceOp
  | imageImport
  deriving Repr, DecidableEq

/-- The `(image, tag)` fields `_cache_lineage` extracts from
`op_result.result` (whether it is an `OperationResult` or a dict). -/
structure OperationResultData where
  image : Option String := none
  tag : Option String := none
  deriving Repr, DecidableEq

/-- The part of `OperationResponse` the recorder reads. -/
structure OperationResponseModel where
  status : OperationStatus
  result : Option OperationResultData
  deriving Repr, DecidableEq

/-- Submission metadata captured by `_track_operation` (`input_image` and
`command` for instances, `registry_url` for imports). -/
structure TrackMetadata where
  inputImage : Option String := none
  command : Option String := none
  registryUrl : Option String := none
  deriving Repr, DecidableEq

/-- `ContreeClient._cache_lineage`. -/
def cacheLineage (cache : LineageCache) (operationId : String)
    (kind : OperationTrackingKind) (opResult : OperationResponseModel)
    (metadata : TrackMetadata) : LineageCache :=
  let resultImage := match opResult.result with
    | some r => r.image
    | none => none
  let resultTag := match opResult.result with
    | some r => r.tag
    | none => none
  match kind with
  | .instanceOp =>
    match metadata.inputImage, resultImage with
    | some inputImage, some resultImg =>
      if opResult.status = .success ∧ inputImage ≠ resultImg then
        cache.put "image" resultImg
          { parentImage := some inputImage, operationId := some operationId,
            command := metadata.command }
          ((cache.get "image" inputImage).map (fun e => e.id))
      else cache
    | _, _ => cache
  | .imageImport =>
    match resultImage with
    | some resultImg =>
      if opResult.status = .success then
        cache.put "image" resultImg
          { operationId := some operationId, registryUrl := metadata.registryUrl,
            tag := resultTag, isImport := true }
          none
      else cache
    | none => cache

/-- `(kind, key)` is unique: the invariant the `UNIQUE(kind, key)` constraint
maintains on the cache table. -/
def LineageCache.wf (c : LineageCache) : Prop :=
  ∀ kind key : String, (c.entries.filter (matchesKey kind key)).length ≤ 1

/-! ## Directory-state update (`FileCache._update_synced_directory`)

```
to_upload = local_files - synced_files
uploaded_files = await gather(upload each)
non_changed_files = [f for f in synced_files if f in local_files]
DELETE FROM directory_state_file WHERE state_id = ?
for file_state in list(uploaded_files) + list(non_changed_files):
    INSERT ... (state_id, file_state.uuid, destination + "/" + relative_path,
                file_state.mode)
```

`FileState` is a frozen dataclass whose equality (and hence set membership
and difference) is on `(path, size, mtime_ns, ino, mode)` — `uuid` and
`sha256` are `field(compare=False)`.  Files coming from the local traversal
have `uuid = None`; files loaded from the `files` table have it populated.
Paths are represented relative to the sync root, which is fixed for the
whole call (the source keeps absolute paths and computes
`path.relative_to(root)` when writing each row).  Python's set difference
and the list comprehension are embedded as list filters; element order is
irrelevant to the claims. -/

/-- The `FileState` dataclass (src/contree_mcp/file_cache.py). -/
structure FileState where
  path : String
  size : Nat
  mtimeNs : Nat
  ino : Nat
  mode : Nat
  uuid : Option String := none
  sha256 : Option String := none
  deriving Repr, DecidableEq

/-- Dataclass equality of `FileState`: `uuid` and `sha256` are excluded
(`compare=False`). -/
def FileState.identEq (a b : FileState) : Bool :=
  a.path == b.path && a.size == b.size && a.mtimeNs == b.mtimeNs &&
    a.ino == b.ino && a.mode == b.mode

/-- `FileCache._upload_file`: upload the bytes, upsert the `files` row, and
return that row — the same path and stat snapshot with the server-assigned
uuid and content hash (the server's answers are the `assignUuid` /
`assignSha` parameters). -/
def uploadFileRow (assignUuid assignSha : String → String) (f : FileState) : FileState :=
  { f with uuid := some (assignUuid f.path), sha256 := some (assignSha f.path) }

/-- A `directory_state_file` row as `_update_synced_directory` inserts it.
The `uuid` column is `TEXT NOT NULL`; the Python code passes
`file_state.uuid`, which is `None` for a `FileState` taken from the local
traversal, so the field is embedded as an `Option` to make "never null"
statable. -/
structure DirectoryStateFileRow where
  uuid : Option String
  targetPath : String
  targetMode : Nat
  deriving Repr, DecidableEq

/-- `FileCache._update_synced_directory`, returning the `directory_state_file`
rows it inserts after the `DELETE`. -/
def updateSyncedDirectory (assignUuid assignSha : String → String)
    (localFiles syncedFiles : List FileState) (destination : String) :
    List DirectoryStateFileRow :=
  let toUpload := localFiles.filter (fun f => !syncedFiles.any (fun s => FileState.identEq f s))
  let uploadedFiles := toUpload.map (uploadFileRow assignUuid assignSha)
  let nonChangedFiles := syncedFiles.filter (fun f => localFiles.any (fun l => FileState.identEq f l))
  (uploadedFiles ++ nonChangedFiles).map
    (fun f => ⟨f.uuid, destination ++ "/" ++ f.path, f.mode⟩)

/-! ## Atomic streamed download (`async_file_writer`, tools/download.py)

```
tmp_path = Path(mktemp(dir=destination.parent, prefix=".download-", suffix=".tmp"))
task = asyncio.create_task(asyncio.to_thread(sync_writer, tmp_path))
try:
    async for chunk in stream:
        await queue_waiter(); queue.put_nowait(chunk)
except:
    tmp_path.unlink(missing_ok=True); raise
finally:
    await queue_waiter(); queue.put_nowait(None)
written = await task
await asyncio.to_thread(tmp_path.rename, destination)
return written
```

The worker thread writes every queued chunk to the temp file; the
destination path is touched only by the final `rename`.  The embedding
records the observable filesystem effect: all chunks yielded by the stream
before it ends or raises land in the temp file; if the stream raised, the
temp file is unlinked and the exception propagates (the `rename` is never
reached); otherwise the temp file is renamed onto the destination.  The
bounded queue and the producer/consumer interleaving only affect timing,
not which bytes reach which path, so they are compressed away. -/

/-- An in-memory filesystem: path ↦ file bytes. -/
def FileSystem := String → Option (List Nat)

/-- Open for writing and write the given bytes ( `dest.open("wb")` plus the
`f.write(chunk)` calls of `sync_writer`). -/
def FileSystem.write (fs : FileSystem) (path : String) (content : List Nat) : FileSystem :=
  fun p => if p = path then some content else fs p

/-- `Path.unlink(missing_ok=True)`. -/
def FileSystem.unlink (fs : FileSystem) (path : String) : FileSystem :=
  fun p => if p = path then none else fs p

/-- `Path.rename(destination)`: atomic move within one directory. -/
def FileSystem.rename (fs : FileSystem) (src dst : String) : FileSystem :=
  fun p => if p = dst then fs src else if p = src then none else fs p

/-- The chunk stream of a download: the byte chunks the async iterator
yields, and whether it then raises mid-stream instead of ending. -/
structure ChunkStream where
  chunks : List (List Nat)
  fails : Bool

/-- `async_file_writer(destination, stream)` over the filesystem: returns
the propagated exception or the byte count, together with the filesystem
after the call.  `tmpPath` is the fresh `mktemp` name in the destination's
directory. -/
def asyncFileWriter (fs : FileSystem) (tmpPath destPath : String) (stream : ChunkStream) :
    Except Unit Nat × FileSystem :=
  let fs₁ := fs.write tmpPath stream.chunks.flatten
  if stream.fails then
    (.error (), fs₁.unlink tmpPath)
  else
    (.ok stream.chunks.flatten.length, fs₁.rename tmpPath destPath)

/-! ## Directory-state identity (`FileCache.sync_directory` and the `rsync` tool)

```
path = path.resolve()
destination = destination.rstrip("/")
excludes_list = frozenset(excludes)
path_url = f"file://{path.as_posix()}?dest={destination}&" + "&".join(sorted(excludes_list))
path_uuid = str(uuid.uuid5(uuid.NAMESPACE_URL, path_url))
...
SELECT * FROM directory_state WHERE uuid = ?
if directory_state is not None:
    ... every branch returns the found state id (the revalidation and
    file-set update paths modify `files` / `directory_state_file` rows but
    return the same `directory_state` id) ...
else:
    return await self._sync_new_directory(...)   # INSERTs a row, returns its id
```

`sync_directory` itself contains no validation: a relative `path` is
silently resolved against the current working directory and the sync
proceeds.  The absolute-path check lives in the `rsync` tool
(src/contree_mcp/tools/rsync.py), which raises `ValueError` before touching
the file cache.

The model keeps exactly the state that determines the returned id: the
`directory_state (uuid, id)` rows and the next `AUTOINCREMENT` id.
`uuid.uuid5(NAMESPACE_URL, url)` is a fixed deterministic function of the
url, injective up to SHA-1 collisions; the model stores the url itself in
the uuid column, so equal urls coincide exactly and distinct urls are
assumed collision-free. -/

/-- A `pathlib.Path` argument: posix text plus whether it is absolute. -/
structure PyPath where
  absolute : Bool
  posix : String
  deriving Repr, DecidableEq

/-- `Path.resolve()` as it affects `as_posix()`: an absolute path is kept, a
relative one is joined onto the current working directory (symlink and
`..` normalisation are outside the model). -/
def PyPath.resolve (p : PyPath) (cwd : String) : String :=
  if p.absolute then p.posix else cwd ++ "/" ++ p.posix

/-- `destination.rstrip("/")`. -/
def rstripSlash (s : String) : String :=
  String.mk ((s.data.reverse.dropWhile (fun c => c = '/')).reverse)

/-- Lexicographic comparison of character lists by code point — Python's
string `<=`. -/
def listLe : List Char → List Char → Bool
  | [], _ => true
  | _ :: _, [] => false
  | a :: as, b :: bs =>
    if a.toNat < b.toNat then true
    else if b.toNat < a.toNat then false
    else listLe as bs

/-- Python's `<=` on strings. -/
def strLe (a b : String) : Bool := listLe a.data b.data

/-- Insert into a lexicographically ascending list. -/
def insertSorted (a : String) : List String → List String
  | [] => [a]
  | b :: rest => if strLe a b then a :: b :: rest else b :: insertSorted a rest

/-- Ascending lexicographic sort (insertion sort — any sort embeds Python's
`sorted`). -/
def sortStrings : List String → List String
  | [] => []
  | a :: rest => insertSorted a (sortStrings rest)

/-- `sorted(frozenset(excludes))`: the distinct exclude patterns in
lexicographic order. -/
def sortedExcludes (excludes : List String) : List String :=
  sortStrings excludes.eraseDups

/-- `path_url = f"file://{path.as_posix()}?dest={destination}&" +
"&".join(sorted(excludes_list))` (with `destination` already stripped). -/
def buildPathUrl (resolvedPosix destination : String) (excludes : List String) : String :=
  ("file://" ++ resolvedPosix ++ "?dest=" ++ destination ++ "&") ++
    String.intercalate "&" (sortedExcludes excludes)

/-- The `directory_state` table as far as the returned id is concerned:
`(uuid, id)` rows plus the next `AUTOINCREMENT` id.  Row position in the
list is immaterial (`uuid` is unique). -/
structure SyncDb where
  states : List (String × Nat)
  nextId : Nat
  deriving Repr, DecidableEq

/-- `FileCache.sync_directory`: the returned `directory_state_id` and the
`directory_state` rows afterwards.  The existing-state branch returns the
found row's id whether or not revalidation or a file-set update runs; the
new-state branch inserts a row and returns its id.  No branch raises for a
relative `path` — it has been resolved against `cwd` already. -/
def syncDirectory (db : SyncDb) (cwd : String) (path : PyPath) (destination : String)
    (excludes : List String) : Nat × SyncDb :=
  let url := buildPathUrl (path.resolve cwd) (rstripSlash destination) excludes
  match db.states.find? (fun e => e.1 = url) with
  | some e => (e.2, db)
  | none => (db.nextId, ⟨(url, db.nextId) :: db.states, db.nextId + 1⟩)

/-- `raise ValueError(...)` in the `rsync` tool — the spec's
`InvalidArgument`. -/
inductive RsyncErr where
  | invalidArgument : RsyncErr
  deriving Repr, DecidableEq

/-- The `rsync` tool (src/contree_mcp/tools/rsync.py): validate that the
source path is absolute and exists, strip the destination, then call
`sync_directory`.  `sourceExists` stands for `source_path.exists()`. -/
def rsyncTool (db : SyncDb) (cwd : String) (source : PyPath) (destination : String)
    (exclude : List String) (sourceExists : Bool) : Except RsyncErr (Nat × SyncDb) :=
  if !source.absolute then .error .invalidArgument
  else if !sourceExists then .error .invalidArgument
  else .ok (syncDirectory db cwd source (rstripSlash destination) exclude)

/-! ## Exclude-pattern matching (`FileCache.traverse_directory_files`)

```
for pattern in excludes:
    pattern = pattern.replace(".", "\\.").replace("*", ".*").replace("?", ".")
    patterns.append(re.compile(pattern, re.IGNORECASE))
for path in root.rglob("*"):
    relative_path = path.relative_to(root)
    if any(p.match(str(relative_path)) for p in patterns):
        continue
    if path.is_file():
        result.append(FileState.from_path(path))
```

Each pattern is turned into a regex (`.` escaped, `*` → `.*`, `?` → `.`) and
tested with `re.match`, which anchors at the *start only*: the regex has to
match a prefix of the relative path, not the whole of it.  In the regex,
`.*` and `.` match any characters except a newline, case-insensitively.

The embedding works on character lists: `translateChars` is the three
`replace` passes (they do not interfere, so one pass over the original
characters is equivalent); `tokensOfRegex` reads the produced regex text
into glob tokens (`.*`, `.`, literal); `tokensMatchFrom` is `re.match`
(match a prefix from position 0).  This tokenisation is faithful to Python's
regex engine only when the original pattern contains none of the regex
metacharacters that the translation passes through unescaped
(`\\ [ ] ( ) | + ^ $` and braces) — `patternOk` states that restriction, and
the theorems assume it.  `rglob` enumerates every descendant regardless of
whether its parent matched a pattern, and non-regular files are dropped by
`is_file()`, so the traversal is the per-file filter `traverseFilter` over
the relative paths of the regular files. -/

/-- `pattern.replace(".", "\\.").replace("*", ".*").replace("?", ".")`. -/
def translateChars : List Char → List Char
  | [] => []
  | c :: rest =>
    if c = '.' then '\\' :: '.' :: translateChars rest
    else if c = '*' then '.' :: '*' :: translateChars rest
    else if c = '?' then '.' :: translateChars rest
    else c :: translateChars rest

/-- A glob token of the compiled pattern. -/
inductive GlobTok where
  /-- `.*` — any run of non-newline characters -/
  | star : GlobTok
  /-- `.` — one non-newline character -/
  | anyChar : GlobTok
  /-- a literal character, compared case-insensitively -/
  | lit (c : Char) : GlobTok
  deriving Repr, DecidableEq

/-- Read the translated regex text into tokens: `\c` is the literal `c`,
`.*` is a star, a lone `.` matches one character, anything else is a
literal. -/
def tokensOfRegex : List Char → List GlobTok
  | [] => []
  | c :: rest =>
    if c = '\\' then
      match rest with
      | [] => []
      | d :: rest' => .lit d :: tokensOfRegex rest'
    else if c = '.' then
      match rest with
      | [] => [.anyChar]
      | d :: rest' =>
        if d = '*' then .star :: tokensOfRegex rest'
        else .anyChar :: tokensOfRegex (d :: rest')
    else .lit c :: tokensOfRegex rest

/-- Case-insensitive character comparison (`re.IGNORECASE`). -/
def charEqCI (a b : Char) : Bool := a.toLower == b.toLower

/-- `re.match` on the token list: does the token sequence match some prefix
of the character list, starting at position 0?  A star consumes any run of
non-newline characters (backtracking), `anyChar` one non-newline
character. -/
def tokensMatchFrom : List GlobTok → List Char → Bool
  | [], _ => true
  | .lit c :: ts, s =>
    match s with
    | [] => false
    | x :: xs => charEqCI c x && tokensMatchFrom ts xs
  | .anyChar :: ts, s =>
    match s with
    | [] => false
    | x :: xs => !(x == '\n') && tokensMatchFrom ts xs
  | .star :: ts, s =>
    tokensMatchFrom ts s ||
      (match s with
       | [] => false
       | x :: xs => !(x == '\n') && tokensMatchFrom (.star :: ts) xs)
  termination_by ts s => (s.length, ts.length)

/-- The same token semantics required to consume the *whole* string. -/
def tokensMatchFull : List GlobTok → List Char → Bool
  | [], s => s.isEmpty
  | .lit c :: ts, s =>
    match s with
    | [] => false
    | x :: xs => charEqCI c x && tokensMatchFull ts xs
  | .anyChar :: ts, s =>
    match s with
    | [] => false
    | x :: xs => !(x == '\n') && tokensMatchFull ts xs
  | .star :: ts, s =>
    tokensMatchFull ts s ||
      (match s with
       | [] => false
       | x :: xs => !(x == '\n') && tokensMatchFull (.star :: ts) xs)
  termination_by ts s => (s.length, ts.length)

/-- The tokens of a pattern read directly as a glob: `*` a star, `?` one
character, everything else literal. -/
def directTokens : List Char → List GlobTok
  | [] => []
  | c :: rest =>
    if c = '*' then .star :: directTokens rest
    else if c = '?' then .anyChar :: directTokens rest
    else .lit c :: directTokens rest

/-- The spec's reading of an exclude pattern ("a shell-style glob in which
`*` matches any run of characters and `?` matches a single character,
case-insensitively"), matched against the *whole* relative path. -/
def globSpecMatch : List Char → List Char → Bool
  | [], s => s.isEmpty
  | c :: ps, s =>
    if c = '*' then
      globSpecMatch ps s ||
        (match s with
         | [] => false
         | _ :: xs => globSpecMatch (c :: ps) xs)
    else
      match s with
      | [] => false
      | x :: xs => (if c = '?' then true else charEqCI c x) && globSpecMatch ps xs
  termination_by ps s => (s.length, ps.length)

/-- Characters the translation passes through although Python's regex
engine gives them special meaning; the token embedding is faithful only for
patterns avoiding them. -/
def regexPassthroughOk (c : Char) : Bool :=
  !(c = '\\' || c = '[' || c = ']' || c = '(' || c = ')' || c = '|' || c = '+' ||
    c = '^' || c = '$' || c = Char.ofNat 123 || c = Char.ofNat 125)

/-- The pattern uses only `*`, `?`, `.` and regex-ordinary characters. -/
def patternOk (pattern : String) : Bool := pattern.data.all regexPassthroughOk

/-- One compiled exclude pattern applied to one relative path (the
`p.match(str(relative_path))` test). -/
def patternExcludes (pattern relPath : String) : Bool :=
  tokensMatchFrom (tokensOfRegex (translateChars pattern.data)) relPath.data

/-- `traverse_directory_files` restricted to what the claim is about: which
regular files (given by their paths relative to the root) survive the
exclude patterns. -/
def traverseFilter (excludes : List String) (relPaths : List String) : List String :=
  relPaths.filter (fun p => !excludes.any (fun pat => patternExcludes pat p))

end ContreeSpec

namespace ContreeSpec

/-! ## C1 theorems -/

/-- Server behaviour that answers 500 on the first attempt and 200 afterwards. -/
def retryScenario : Nat → Nat := fun attempt => if attempt = 0 then 500 else 200

/-- C1.  The claim says a 5xx response is retried (sleep `retry_time`, up to
`retry_count` attempts) and the call fails only after retries are exhausted.
The code checks `status_code >= 400` before `status_code >= 500`, so a 500
raises `ContreeError` on the very first attempt: with a server that answers
500 once and 200 afterwards the call fails with status 500 instead of
succeeding on the retry, and even with a server that always answers 500 the
call fails immediately rather than after `retry_count` attempts (the retry
branch is unreachable). -/
theorem streamRequest_500_raises_immediately :
    streamRequest retryScenario 5 = .error (.remote 500) ∧
    streamRequest (fun _ => 500) 5 = .error (.remote 500) ∧
    streamRequest (fun _ => 503) 1 = streamRequest (fun _ => 503) 5 := by
  refine ⟨rfl, rfl, rfl⟩

/-! ## C10 theorems -/

/-- With the default `ttl = -1`, `Cache.get` never discards a row for age:
the lookup is a plain search by key. -/
theorem existsCacheGet_default (cache : ExistsCache) (key : String) (now : Nat) :
    existsCacheGet cache key now = cache.find? (fun row => row.key = key) := by
  unfold existsCacheGet
  cases h : cache.find? (fun row => row.key = key) with
  | none => rfl
  | some row =>
    have hcond : ¬ ((-1 : Int) > 0 ∧ (now : Int) - row.updatedAt > -1) := by
      rintro ⟨h1, _⟩
      norm_num at h1
    simp [hcond]

/-- C10.  If the HEAD request inside `check_file_exists` raises, the call
returns `False` and stores `{"exists": false}` under the key; because the
cache is read with the default `ttl = -1` (no expiry), every subsequent call
for the same key — at any later time and whatever the server would now
answer — returns `False` from the cache without issuing a HEAD request.  The
same holds for `file_exists` with its `"<image>:<path>"` key. -/
theorem checkFileExists_error_poisons_cache
    (cache : ExistsCache) (key : String) (now : Nat)
    (hmiss : existsCacheGet cache key now = none) :
    (checkFileExists cache key (.error ()) now).1 = false ∧
    (∀ later : Nat, ∀ head₂ : HeadResult,
      checkFileExists (checkFileExists cache key (.error ()) now).2.1 key head₂ later =
        (false, (checkFileExists cache key (.error ()) now).2.1, false)) ∧
    (∀ img path : String, ∀ later : Nat, ∀ head₂ : HeadResult,
      key = img ++ ":" ++ path →
      fileExists (checkFileExists cache key (.error ()) now).2.1 img path head₂ later =
        (false, (checkFileExists cache key (.error ()) now).2.1, false)) := by
  have hfind : cache.find? (fun row => row.key = key) = none := by
    rw [existsCacheGet_default] at hmiss
    exact hmiss
  have hany : cache.any (fun row => row.key = key) = false := by
    rw [List.any_eq_false]
    intro row hrow
    have := List.find?_eq_none.mp hfind row hrow
    exact this
  have hstate : (checkFileExists cache key (.error ()) now).2.1 =
      ⟨key, false, now⟩ :: cache := by
    simp [checkFileExists, hmiss, existsCachePut, hany]
  have hget2 : ∀ later : Nat,
      existsCacheGet (⟨key, false, now⟩ :: cache) key later = some ⟨key, false, now⟩ := by
    intro later
    rw [existsCacheGet_default]
    exact List.find?_cons_of_pos _ (by simp)
  refine ⟨?_, ?_, ?_⟩
  · simp [checkFileExists, hmiss]
  · intro later head₂
    rw [hstate]
    simp [checkFileExists, hget2]
  · intro img path later head₂ hkey
    subst hkey
    rw [hstate]
    simp [fileExists, checkFileExists, hget2]

/-- Witness for C10 at a concrete input: an empty cache, key `"u-1"`, a HEAD
that raises, and a later call whose HEAD would answer 200. -/
theorem checkFileExists_error_poisons_cache_witness :
    (checkFileExists [] "u-1" (.error ()) 0).1 = false ∧
    checkFileExists (checkFileExists [] "u-1" (.error ()) 0).2.1 "u-1" (.ok 200) 99 =
      (false, (checkFileExists [] "u-1" (.error ()) 0).2.1, false) := by
  have h := checkFileExists_error_poisons_cache [] "u-1" 0 (by decide)
  exact ⟨h.1, h.2.1 99 (.ok 200)⟩

/-! ## C2 theorems -/

/-- C2 counterexample.  The key `"abc\n"` does not match
`^[A-Za-z_][A-Za-z0-9_.]*$` in the spec's sense (it contains a newline), yet
`SAFE_FIELD_PATTERN.match` accepts it (Python's `$` matches before a trailing
newline), so `list_entries` does not fail: the query runs and rows are
read — refuting "the call fails with InvalidArgument before any query runs"
for every non-matching key. -/
theorem listEntries_newline_key_not_rejected :
    specSafeKey "abc\n" = false ∧
    listEntries [⟨1, "image", "k", [("abc\n", "v")], 0⟩] "image" 100 [("abc\n", "v")] =
      (.ok [⟨1, "image", "k", [("abc\n", "v")], 0⟩],
       [⟨1, "image", "k", [("abc\n", "v")], 0⟩], true) := by
  refine ⟨by decide, ?_⟩
  simp [listEntries, List.find?, safeFieldMatch, specSafeList, isSafeFirst, isSafeRest,
    List.mergeSort, List.filter, List.all, List.lookup]

/-- C2 (amended).  `list_entries` rejects a filter key if and only if it is
not a pattern match and not a pattern match followed by one trailing
newline; every call with a rejected key fails with `InvalidArgument`
(`ValueError`) before any query is built or run, leaving the cache rows
untouched.  The validator accepts every key that matches the spec's pattern,
and rejects in particular the claim's injection payloads
`x') OR 1=1 --` and `x'); DROP TABLE cache; --`. -/
theorem listEntries_unsafe_key_rejected
    (cache : List JsonCacheEntry) (kind : String) (lim : Nat)
    (fieldFilter : List (String × String))
    (hbad : ∃ kv ∈ fieldFilter, safeFieldMatch kv.1 = false) :
    (∃ badKey : String,
      (listEntries cache kind lim fieldFilter).1 = .error (.invalidArgument badKey) ∧
      safeFieldMatch badKey = false ∧ specSafeKey badKey = false) ∧
    (listEntries cache kind lim fieldFilter).2.1 = cache ∧
    (listEntries cache kind lim fieldFilter).2.2 = false ∧
    (∀ k : String, specSafeKey k = true → safeFieldMatch k = true) ∧
    safeFieldMatch sqlInjectionKey1 = false ∧
    safeFieldMatch sqlInjectionKey2 = false := by
  have haccept : ∀ k : String, specSafeKey k = true → safeFieldMatch k = true := by
    intro k hk
    unfold safeFieldMatch
    unfold specSafeKey at hk
    simp [hk]
  obtain ⟨kv, hmem, hkv⟩ := hbad
  have hsome : (fieldFilter.find? (fun kv => !safeFieldMatch kv.1)).isSome := by
    rw [List.find?_isSome]
    exact ⟨kv, hmem, by simp [hkv]⟩
  obtain ⟨kv', hfind⟩ := Option.isSome_iff_exists.mp hsome
  have hkv' : safeFieldMatch kv'.1 = false := by
    have := List.find?_some hfind
    simpa using this
  have hspec : specSafeKey kv'.1 = false := by
    by_contra h
    have := haccept kv'.1 (by simpa using h)
    rw [hkv'] at this
    exact Bool.false_ne_true this
  refine ⟨⟨kv'.1, ?_, hkv', hspec⟩, ?_, ?_, haccept, by decide, by decide⟩
  · simp [listEntries, hfind]
  · simp [listEntries, hfind]
  · simp [listEntries, hfind]

/-- Witness for C2 (amended): a one-row cache and a filter using the first
injection payload as key — the call fails with `InvalidArgument`, the rows
are unchanged, and no query runs. -/
theorem listEntries_unsafe_key_rejected_witness :
    (∃ badKey : String,
      (listEntries [⟨1, "image", "k", [], 0⟩] "image" 100 [(sqlInjectionKey1, "v")]).1 =
        .error (.invalidArgument badKey) ∧
      safeFieldMatch badKey = false ∧ specSafeKey badKey = false) ∧
    (listEntries [⟨1, "image", "k", [], 0⟩] "image" 100 [(sqlInjectionKey1, "v")]).2.1 =
      [⟨1, "image", "k", [], 0⟩] ∧
    (listEntries [⟨1, "image", "k", [], 0⟩] "image" 100 [(sqlInjectionKey1, "v")]).2.2 = false := by
  have h := listEntries_unsafe_key_rejected [⟨1, "image", "k", [], 0⟩] "image" 100
    [(sqlInjectionKey1, "v")] ⟨(sqlInjectionKey1, "v"), by simp, by decide⟩
  exact ⟨h.1, h.2.1, h.2.2.1⟩

/-! ## C8 theorems -/

/-- `Cache.put` followed by `Cache.get` on the same `file_by_hash` key
returns the stored value. -/
theorem fhGet_fhPut_self (cache : FileHashCache) (key : String) (val : FileByHashVal) :
    fhGet (fhPut cache key val) key = some val := by
  induction cache with
  | nil => simp [fhPut, fhGet]
  | cons e rest ih =>
    by_cases he : e.1 = key
    · simp [fhPut, he, fhGet]
    · simp only [fhPut, he, if_false]
      simpa [fhGet, List.find?_cons, he] using ih

/-- C8.  Uploading the same content twice, starting from a cache with no
`file_by_hash` row for its digest and a server that does not yet hold the
content (`GET /files?sha256=…` answers 404): the first call GETs, POSTs the
bytes and caches the server response under the digest; the second call
returns that cached `(uuid, sha256)` pair with an empty request trace; and
across both calls exactly one `POST /files` is issued. -/
theorem uploadFile_coalesces (hashHex : List Nat → String) (server : FileServer)
    (cache : FileHashCache) (content : List Nat)
    (hmiss : fhGet cache (hashHex content) = none)
    (h404 : server.getBySha (hashHex content) = .error 404) :
    (uploadFile hashHex server cache content).1 = .ok (server.post content) ∧
    fhGet (uploadFile hashHex server cache content).2.1 (hashHex content) =
      some (.resp (server.post content)) ∧
    uploadFile hashHex server (uploadFile hashHex server cache content).2.1 content =
      (.ok (server.post content), (uploadFile hashHex server cache content).2.1, []) ∧
    (((uploadFile hashHex server cache content).2.2 ++
        (uploadFile hashHex server (uploadFile hashHex server cache content).2.1 content).2.2).countP
      fun req => match req with
        | .postFiles _ => true
        | _ => false) = 1 := by
  have h1 : uploadFile hashHex server cache content =
      (.ok (server.post content),
       fhPut (fhPut cache (hashHex content) .notFound) (hashHex content)
         (.resp (server.post content)),
       [.getFiles (hashHex content), .postFiles content]) := by
    simp [uploadFile, getFileByHash, hmiss, h404]
  have hcached : fhGet (uploadFile hashHex server cache content).2.1 (hashHex content) =
      some (.resp (server.post content)) := by
    rw [h1]
    exact fhGet_fhPut_self _ _ _
  have h2 : uploadFile hashHex server (uploadFile hashHex server cache content).2.1 content =
      (.ok (server.post content), (uploadFile hashHex server cache content).2.1, []) := by
    generalize hc : (uploadFile hashHex server cache content).2.1 = c₁ at hcached ⊢
    simp [uploadFile, getFileByHash, hcached]
  refine ⟨by rw [h1], hcached, h2, ?_⟩
  rw [h2, h1]
  simp [List.countP_append, List.countP_cons]

/-! ## C3 theorems -/

/-- Dataclass equality of `FileState` forces equal paths. -/
theorem identEq_path {a b : FileState} (h : FileState.identEq a b = true) : a.path = b.path := by
  simp [FileState.identEq] at h
  exact h.1.1.1.1

/-- Dataclass equality of `FileState` is symmetric. -/
theorem identEq_symm {a b : FileState} (h : FileState.identEq a b = true) :
    FileState.identEq b a = true := by
  simp [FileState.identEq] at h ⊢
  obtain ⟨⟨⟨⟨h1, h2⟩, h3⟩, h4⟩, h5⟩ := h
  exact ⟨⟨⟨⟨h1.symm, h2.symm⟩, h3.symm⟩, h4.symm⟩, h5.symm⟩

/-- `++` on strings cancels a common prefix. -/
theorem string_append_left_cancel {a x y : String} (h : a ++ x = a ++ y) : x = y := by
  have hd := congrArg String.data h
  simp only [String.data_append] at hd
  exact String.ext (List.append_cancel_left hd)

/-- Comparing two `destination + "/" + path` target paths compares the
relative paths. -/
theorem targetPath_beq (destination p q : String) :
    (destination ++ "/" ++ p == destination ++ "/" ++ q) = (p == q) := by
  by_cases h : p = q
  · simp [h]
  · have hne : ¬ (destination ++ "/" ++ p = destination ++ "/" ++ q) := by
      intro hc
      exact h (string_append_left_cancel hc)
    simp [h, hne]

/-- Filtering a mapped list filters the underlying list. -/
theorem filter_of_map {α β : Type} (f : α → β) (p : β → Bool) (l : List α) :
    (l.map f).filter p = (l.filter (fun a => p (f a))).map f := by
  induction l with
  | nil => rfl
  | cons a l ih =>
    by_cases h : p (f a) = true <;> simp [h, ih]

/-- In a list of file states with pairwise distinct paths, restricting any
sublist selection to the path of a member `s` leaves at most the element `s`
itself. -/
theorem filter_path_single (L : List FileState) (s : FileState) (q : FileState → Bool)
    (hnd : (L.map (fun f => f.path)).Nodup) (hs : s ∈ L) :
    (L.filter q).filter (fun f => f.path == s.path) = if q s then [s] else [] := by
  induction L with
  | nil => cases hs
  | cons a L ih =>
    rw [List.map_cons, List.nodup_cons] at hnd
    obtain ⟨hna, hndL⟩ := hnd
    rcases List.mem_cons.mp hs with rfl | hsL
    · have hL : (L.filter q).filter (fun f => f.path == s.path) = [] := by
        rw [List.filter_eq_nil_iff]
        intro f hf
        have hfL : f ∈ L := List.mem_of_mem_filter hf
        simp only [beq_iff_eq]
        intro hfp
        exact hna (hfp ▸ List.mem_map_of_mem (fun f => f.path) hfL)
      by_cases hqa : q s = true
      · rw [List.filter_cons_of_pos hqa, List.filter_cons_of_pos (by simp), hL, if_pos hqa]
      · rw [List.filter_cons_of_neg (by simpa using hqa), hL, if_neg hqa]
    · have hpa : (a.path == s.path) = false := by
        simp only [beq_eq_false_iff_ne, ne_eq]
        intro hap
        exact hna (hap ▸ List.mem_map_of_mem (fun f => f.path) hsL)
      by_cases hqa : q a = true
      · rw [List.filter_cons_of_pos hqa, List.filter_cons_of_neg (by simp [hpa])]
        exact ih hndL hsL
      · rw [List.filter_cons_of_neg (by simpa using hqa)]
        exact ih hndL hsL

/-- C3.  In `_update_synced_directory`, every file present in both the local
and the synced set (dataclass equality on `(path, size, mtime_ns, inode,
mode)`) yields exactly one resulting `directory_state_file` row at its
target path, and that row carries the uuid and mode of the *synced* element
(the carried-through files are taken from `synced_files`, never from
`local_files`); under the invariant that synced rows have their uuid
populated, that uuid is non-null. -/
theorem updateSyncedDirectory_preserves_uuid
    (assignUuid assignSha : String → String)
    (localFiles syncedFiles : List FileState) (destination : String) (s : FileState)
    (hlocalNd : (localFiles.map (fun f => f.path)).Nodup)
    (hsyncedNd : (syncedFiles.map (fun f => f.path)).Nodup)
    (huuid : ∀ f ∈ syncedFiles, f.uuid.isSome = true)
    (hs : s ∈ syncedFiles)
    (hsl : localFiles.any (fun l => FileState.identEq s l) = true) :
    (updateSyncedDirectory assignUuid assignSha localFiles syncedFiles destination).filter
        (fun row => row.targetPath == destination ++ "/" ++ s.path) =
      [⟨s.uuid, destination ++ "/" ++ s.path, s.mode⟩] ∧
    s.uuid.isSome = true := by
  refine ⟨?_, huuid s hs⟩
  obtain ⟨l, hlmem, hlid⟩ := List.any_eq_true.mp hsl
  have hlpath : l.path = s.path := (identEq_path hlid).symm
  have hupl : (localFiles.filter
      (fun f => !syncedFiles.any (fun t => FileState.identEq f t))).filter
      (fun f => (uploadFileRow assignUuid assignSha f).path == s.path) = [] := by
    rw [List.filter_eq_nil_iff]
    intro g hg
    obtain ⟨hgl, hgcond⟩ := List.mem_filter.mp hg
    simp only [uploadFileRow, beq_iff_eq]
    intro hgp
    have hgeq : g = l :=
      List.inj_on_of_nodup_map hlocalNd hgl hlmem (by rw [hgp, hlpath])
    have hids : FileState.identEq g s = true := identEq_symm (hgeq ▸ hlid)
    have hany : syncedFiles.any (fun t => FileState.identEq g t) = true :=
      List.any_eq_true.mpr ⟨s, hs, hids⟩
    rw [hany] at hgcond
    simp at hgcond
  have hnc : (syncedFiles.filter (fun f => localFiles.any (fun l => FileState.identEq f l))).filter
      (fun f => f.path == s.path) = [s] := by
    rw [filter_path_single syncedFiles s _ hsyncedNd hs, if_pos hsl]
  simp only [updateSyncedDirectory]
  rw [filter_of_map, List.filter_congr (fun f _ => targetPath_beq destination f.path s.path),
    List.filter_append, filter_of_map, hupl, hnc]
  rfl

/-- Witness for C3: the synced set holds `a.txt` (uuid `u-a`) and `b.txt`
(uuid `u-b`); locally `a.txt` is unchanged and `new.txt` was added, so the
local set carries `uuid = none` everywhere.  The carried-through row for
`a.txt` keeps uuid `u-a`. -/
theorem updateSyncedDirectory_preserves_uuid_witness :
    (updateSyncedDirectory (fun p => "up-" ++ p) (fun p => "sha-" ++ p)
        [⟨"a.txt", 3, 10, 100, 420, none, none⟩, ⟨"new.txt", 5, 11, 101, 420, none, none⟩]
        [⟨"a.txt", 3, 10, 100, 420, some "u-a", some "h-a"⟩,
         ⟨"b.txt", 4, 12, 102, 420, some "u-b", some "h-b"⟩]
        "/app").filter (fun row => row.targetPath == "/app" ++ "/" ++ "a.txt") =
      [⟨some "u-a", "/app" ++ "/" ++ "a.txt", 420⟩] := by
  have h := updateSyncedDirectory_preserves_uuid (fun p => "up-" ++ p) (fun p => "sha-" ++ p)
    [⟨"a.txt", 3, 10, 100, 420, none, none⟩, ⟨"new.txt", 5, 11, 101, 420, none, none⟩]
    [⟨"a.txt", 3, 10, 100, 420, some "u-a", some "h-a"⟩,
     ⟨"b.txt", 4, 12, 102, 420, some "u-b", some "h-b"⟩]
    "/app" ⟨"a.txt", 3, 10, 100, 420, some "u-a", some "h-a"⟩
    (by simp) (by simp) (by intro f hf; fin_cases hf <;> rfl)
    (by simp) (by decide)
  exact h.1

/-! ## C7 theorems -/

/-- After `Cache.put` on a table where `(kind, key)` is unique, exactly one
row lives at `(kind, key)`, and it carries the stored `data` and
`parent_id`. -/
theorem putEntries_filter_eq (l : List LineageEntry) (kind key : String) (data : LineageData)
    (pid : Option Nat) (nid : Nat)
    (hwf : (l.filter (matchesKey kind key)).length ≤ 1) :
    ∃ i : Nat, (putEntries l kind key data pid nid).filter (matchesKey kind key) =
      [⟨i, kind, key, pid, data⟩] := by
  induction l with
  | nil =>
    refine ⟨nid, ?_⟩
    simp [putEntries, matchesKey]
  | cons e rest ih =>
    by_cases hm : matchesKey kind key e = true
    · refine ⟨e.id, ?_⟩
      have hrest : rest.filter (matchesKey kind key) = [] := by
        rw [List.filter_cons_of_pos hm] at hwf
        simpa using hwf
      have hnew : matchesKey kind key (⟨e.id, kind, key, pid, data⟩ : LineageEntry) = true := by
        simp [matchesKey]
      simp [putEntries, hm, hrest, hnew]
    · have hwf' : (rest.filter (matchesKey kind key)).length ≤ 1 := by
        rw [List.filter_cons_of_neg (by simpa using hm)] at hwf
        exact hwf
      obtain ⟨i, hi⟩ := ih hwf'
      refine ⟨i, ?_⟩
      simp only [putEntries, hm, Bool.false_eq_true, if_false]
      rw [List.filter_cons_of_neg (by simpa using hm), hi]

/-- C7.  After a terminal operation the lineage recorder behaves as claimed:
(1) for a `SUCCESS` instance run whose result image differs from the input
image, exactly one row exists at `(kind="image", key=output_image)`, with
`data.parent_image = input_image` and `parent_id` the id of the input
image's row (`none` when that row is unknown); (2) for a `SUCCESS`
`image_import`, the imported image's single row has `parent_id = none` and
`data.is_import = true`; (3) a run whose result image equals the input image
writes nothing; (4) a non-`SUCCESS` operation writes nothing. -/
theorem cacheLineage_invariants (cache : LineageCache) (hwf : cache.wf)
    (opId : String) (md : TrackMetadata) :
    (∀ (res : OperationResponseModel) (ii ri : String) (rtag : Option String),
      md.inputImage = some ii →
      res.status = .success →
      res.result = some ⟨some ri, rtag⟩ →
      ii ≠ ri →
      ∃ i : Nat, ((cacheLineage cache opId .instanceOp res md).entries.filter
          (matchesKey "image" ri)) =
        [⟨i, "image", ri, (cache.get "image" ii).map (fun e => e.id),
          ⟨some ii, some opId, md.command, none, none, false⟩⟩]) ∧
    (∀ (res : OperationResponseModel) (ri : String) (rtag : Option String),
      res.status = .success →
      res.result = some ⟨some ri, rtag⟩ →
      ∃ i : Nat, ((cacheLineage cache opId .imageImport res md).entries.filter
          (matchesKey "image" ri)) =
        [⟨i, "image", ri, none, ⟨none, some opId, none, md.registryUrl, rtag, true⟩⟩]) ∧
    (∀ (res : OperationResponseModel) (ii : String) (rtag : Option String),
      md.inputImage = some ii →
      res.result = some ⟨some ii, rtag⟩ →
      cacheLineage cache opId .instanceOp res md = cache) ∧
    (∀ (k : OperationTrackingKind) (res : OperationResponseModel),
      res.status ≠ .success →
      cacheLineage cache opId k res md = cache) := by
  refine ⟨?_, ?_, ?_, ?_⟩
  · intro res ii ri rtag hmd hst hres hne
    have hcond : res.status = OperationStatus.success ∧ ii ≠ ri := ⟨hst, hne⟩
    simp only [cacheLineage, hmd, hres, if_pos hcond, LineageCache.put]
    exact putEntries_filter_eq _ _ _ _ _ _ (hwf "image" ri)
  · intro res ri rtag hst hres
    simp only [cacheLineage, hres, if_pos hst, LineageCache.put]
    exact putEntries_filter_eq _ _ _ _ _ _ (hwf "image" ri)
  · intro res ii rtag hmd hres
    have hcond : ¬ (res.status = OperationStatus.success ∧ ii ≠ ii) := by
      rintro ⟨_, h⟩
      exact h rfl
    simp only [cacheLineage, hmd, hres, if_neg hcond]
  · intro k res hst
    cases k with
    | instanceOp =>
      simp only [cacheLineage]
      rcases md.inputImage with _ | ii
      · rcases hr : res.result with _ | r <;> simp [hr]
      · rcases hr : res.result with _ | r
        · simp [hr]
        · rcases hi : r.image with _ | img
          · simp [hr, hi]
          · have hcond : ¬ (res.status = OperationStatus.success ∧ ii ≠ img) := by
              rintro ⟨h, _⟩
              exact hst h
            simp [hr, hi, if_neg hcond]
    | imageImport =>
      simp only [cacheLineage]
      rcases hr : res.result with _ | r
      · simp [hr]
      · rcases hi : r.image with _ | img
        · simp [hr, hi]
        · simp [hr, hi, if_neg hst]

/-- Witness for C7 at concrete inputs: a cache holding only the lineage row
of `img-A` (id 7), a successful instance run `op-1` from `img-A` to `img-B`
carrying command `make`, and a successful import `op-1` of `img-C`. -/
theorem cacheLineage_invariants_witness :
    (∃ i : Nat, ((cacheLineage ⟨[⟨7, "image", "img-A", none, {}⟩], 8⟩ "op-1" .instanceOp
        ⟨.success, some ⟨some "img-B", none⟩⟩
        ⟨some "img-A", some "make", none⟩).entries.filter (matchesKey "image" "img-B")) =
      [⟨i, "image", "img-B", some 7,
        ⟨some "img-A", some "op-1", some "make", none, none, false⟩⟩]) ∧
    (∃ i : Nat, ((cacheLineage ⟨[⟨7, "image", "img-A", none, {}⟩], 8⟩ "op-1" .imageImport
        ⟨.success, some ⟨some "img-C", none⟩⟩
        ⟨some "img-A", some "make", none⟩).entries.filter (matchesKey "image" "img-C")) =
      [⟨i, "image", "img-C", none,
        ⟨none, some "op-1", none, none, none, true⟩⟩]) := by
  have h := cacheLineage_invariants ⟨[⟨7, "image", "img-A", none, {}⟩], 8⟩
    (by intro kind key; simp [LineageCache.wf, List.filter]; split <;> simp)
    "op-1" ⟨some "img-A", some "make", none⟩
  constructor
  · have ha := h.1 ⟨.success, some ⟨some "img-B", none⟩⟩ "img-A" "img-B" none rfl rfl rfl
      (by decide)
    simpa [LineageCache.get, matchesKey, List.find?] using ha
  · exact h.2.1 ⟨.success, some ⟨some "img-C", none⟩⟩ "img-C" none rfl rfl

/-- Witness for C8: constant digest function, an empty cache, a server that
knows no files and assigns uuid `"u-42"` on upload, content `[1, 2, 3]`. -/
theorem uploadFile_coalesces_witness :
    (uploadFile (fun _ => "h") ⟨fun _ => .error 404, fun _ => ⟨"u-42", "h"⟩⟩ [] [1, 2, 3]).1 =
      .ok ⟨"u-42", "h"⟩ ∧
    uploadFile (fun _ => "h") ⟨fun _ => .error 404, fun _ => ⟨"u-42", "h"⟩⟩
        (uploadFile (fun _ => "h") ⟨fun _ => .error 404, fun _ => ⟨"u-42", "h"⟩⟩ [] [1, 2, 3]).2.1
        [1, 2, 3] =
      (.ok ⟨"u-42", "h"⟩,
       (uploadFile (fun _ => "h") ⟨fun _ => .error 404, fun _ => ⟨"u-42", "h"⟩⟩ [] [1, 2, 3]).2.1,
       []) := by
  have h := uploadFile_coalesces (fun _ => "h")
    ⟨fun _ => .error 404, fun _ => ⟨"u-42", "h"⟩⟩ [] [1, 2, 3] (by rfl) (by rfl)
  exact ⟨h.1, h.2.2.1⟩

/-! ## C4 theorems -/

/-- C4 counterexample.  `FileCache.sync_directory` called with the relative
path `proj` (cwd `/home/user`) does not fail: it resolves the path against
the working directory, inserts a `directory_state` row for
`file:///home/user/proj?dest=/app&` and returns its id — refuting "the call
fails with `InvalidArgument` and no sync is performed". -/
theorem syncDirectory_relative_path_performs_sync :
    (syncDirectory ⟨[], 1⟩ "/home/user" ⟨false, "proj"⟩ "/app" []).1 = 1 ∧
    (syncDirectory ⟨[], 1⟩ "/home/user" ⟨false, "proj"⟩ "/app" []).2.states =
      [("file:///home/user/proj?dest=/app&", 1)] := by
  constructor <;> decide

/-- C4 (amended).  The absolute-path precondition is enforced one layer up:
the `rsync` tool fails with `InvalidArgument` (`ValueError`) for every
relative source path, before the file cache is touched;
`FileCache.sync_directory` itself accepts a relative path and behaves as if
it had been given the path resolved against the current working
directory. -/
theorem rsyncTool_relative_source_fails (db : SyncDb) (cwd posix destination : String)
    (exclude : List String) (sourceExists : Bool) :
    rsyncTool db cwd ⟨false, posix⟩ destination exclude sourceExists =
      .error .invalidArgument ∧
    syncDirectory db cwd ⟨false, posix⟩ destination exclude =
      syncDirectory db cwd ⟨true, cwd ++ "/" ++ posix⟩ destination exclude := by
  constructor
  · rfl
  · simp [syncDirectory, PyPath.resolve]

/-! ## C6 theorems -/

/-- C6 counterexample.  The exclude sets `{"a&b"}` and `{"a", "b"}` are
distinct, yet with the same path and destination both syncs build the same
`path_url` (`"&".join` is not injective on exclude sets), hence the same
namespace uuid and the same directory-state id 1 — refuting "different
exclude sets yield different ids". -/
theorem syncDirectory_exclude_join_collision :
    sortedExcludes ["a&b"] ≠ sortedExcludes ["a", "b"] ∧
    (syncDirectory ⟨[], 1⟩ "/h" ⟨true, "/proj"⟩ "/app" ["a&b"]).1 = 1 ∧
    (syncDirectory (syncDirectory ⟨[], 1⟩ "/h" ⟨true, "/proj"⟩ "/app" ["a&b"]).2
        "/h" ⟨true, "/proj"⟩ "/app" ["a", "b"]).1 = 1 := by
  refine ⟨by decide, by decide, by decide⟩

/-- C6 (amended).  For a fixed `(path, destination, excludes)` triple the
returned id is stable across calls; and two exclude sets yield different ids
(from a fresh state table) whenever the `"&"`-joins of their sorted patterns
differ — the derivation is injective in that joined string, not in the
exclude set itself. -/
theorem syncDirectory_id_deterministic
    (db : SyncDb) (cwd : String) (path : PyPath) (destination : String)
    (excludes e₁ e₂ : List String) (n : Nat)
    (hjoin : String.intercalate "&" (sortedExcludes e₁) ≠
      String.intercalate "&" (sortedExcludes e₂)) :
    (syncDirectory (syncDirectory db cwd path destination excludes).2
        cwd path destination excludes).1 =
      (syncDirectory db cwd path destination excludes).1 ∧
    (syncDirectory ⟨[], n⟩ cwd path destination e₁).1 ≠
      (syncDirectory (syncDirectory ⟨[], n⟩ cwd path destination e₁).2
        cwd path destination e₂).1 := by
  constructor
  · rcases hfind : db.states.find?
        (fun e => e.1 = buildPathUrl (path.resolve cwd) (rstripSlash destination) excludes)
      with _ | e
    · simp only [syncDirectory, hfind]
      rw [List.find?_cons_of_pos _ (by simp)]
    · simp only [syncDirectory, hfind]
  · have hurl : buildPathUrl (path.resolve cwd) (rstripSlash destination) e₁ ≠
        buildPathUrl (path.resolve cwd) (rstripSlash destination) e₂ := by
      intro hc
      exact hjoin (string_append_left_cancel hc)
    simp only [syncDirectory, List.find?_nil]
    rw [List.find?_cons_of_neg _ (by simp [hurl])]
    simp

/-- Witness for C6 (amended): path `/proj`, destination `/app`, exclude sets
`{}` and `{"x"}` whose joins `""` and `"x"` differ. -/
theorem syncDirectory_id_deterministic_witness :
    (syncDirectory (syncDirectory ⟨[], 5⟩ "/h" ⟨true, "/proj"⟩ "/app" []).2
        "/h" ⟨true, "/proj"⟩ "/app" []).1 =
      (syncDirectory ⟨[], 5⟩ "/h" ⟨true, "/proj"⟩ "/app" []).1 ∧
    (syncDirectory ⟨[], 5⟩ "/h" ⟨true, "/proj"⟩ "/app" []).1 ≠
      (syncDirectory (syncDirectory ⟨[], 5⟩ "/h" ⟨true, "/proj"⟩ "/app" []).2
        "/h" ⟨true, "/proj"⟩ "/app" ["x"]).1 :=
  syncDirectory_id_deterministic ⟨[], 5⟩ "/h" ⟨true, "/proj"⟩ "/app" [] [] ["x"] 5
    (by decide)

/-! ## C5 theorems -/

/-- The translation never emits a leading `*`: a `*` only ever appears as
the second character of an emitted `.*` pair. -/
theorem translateChars_head_ne_star (cs rest : List Char) :
    translateChars cs ≠ '*' :: rest := by
  cases cs with
  | nil => simp [translateChars]
  | cons c cs' =>
    simp only [translateChars]
    by_cases h1 : c = '.'
    · simp [h1]
    · by_cases h2 : c = '*'
      · simp [h1, h2]
      · by_cases h3 : c = '?'
        · simp [h1, h2, h3]
        · simp [h1, h2, h3, Ne.symm h2]

/-- Reading the translated regex back as tokens yields exactly the direct
glob reading of the pattern, for patterns free of pass-through regex
metacharacters. -/
theorem tokensOfRegex_translate (cs : List Char) (hok : cs.all regexPassthroughOk = true) :
    tokensOfRegex (translateChars cs) = directTokens cs := by
  induction cs with
  | nil => rfl
  | cons c cs' ih =>
    rw [List.all_cons, Bool.and_eq_true] at hok
    obtain ⟨hc, hcs'⟩ := hok
    have ihh := ih hcs'
    have hbs : c ≠ '\\' := by
      intro h
      rw [h] at hc
      simp [regexPassthroughOk] at hc
    by_cases h1 : c = '.'
    · subst h1
      simp [translateChars, tokensOfRegex, directTokens, ihh]
    · by_cases h2 : c = '*'
      · subst h2
        simp [translateChars, tokensOfRegex, directTokens, ihh]
      · by_cases h3 : c = '?'
        · subst h3
          cases htc : translateChars cs' with
          | nil =>
            have hnil : directTokens cs' = [] := by
              rw [← ihh, htc]
              rfl
            simp [translateChars, htc, tokensOfRegex, directTokens, hnil]
          | cons d rest' =>
            have hd : d ≠ '*' := by
              intro h
              exact translateChars_head_ne_star cs' rest' (by rw [htc, h])
            have hstep : tokensOfRegex (translateChars ('?' :: cs')) =
                GlobTok.anyChar :: tokensOfRegex (translateChars cs') := by
              rw [show translateChars ('?' :: cs') = '.' :: translateChars cs' by
                simp [translateChars]]
              rw [htc]
              simp [tokensOfRegex, hd]
            rw [hstep, ihh]
            simp [directTokens]
        · have htr : translateChars (c :: cs') = c :: translateChars cs' := by
            simp [translateChars, h1, h2, h3]
          have htk : tokensOfRegex (c :: translateChars cs') =
              GlobTok.lit c :: tokensOfRegex (translateChars cs') := by
            rw [tokensOfRegex.eq_def]
            simp [hbs, h1]
          rw [htr, htk, ihh]
          simp [directTokens, h2, h3]

/-- `re.match` semantics versus whole-string semantics: the token sequence
matches from the start of `s` iff it fully matches some prefix of `s`
(bounded induction on `tokens + input` length). -/
theorem tokensMatchFrom_iff_prefixFull_bounded :
    ∀ (n : Nat) (ts : List GlobTok) (s : List Char), ts.length + s.length ≤ n →
      (tokensMatchFrom ts s = true ↔
        ∃ p q : List Char, s = p ++ q ∧ tokensMatchFull ts p = true) := by
  intro n
  induction n with
  | zero =>
    intro ts s hb
    have hts : ts = [] := by
      cases ts with
      | nil => rfl
      | cons a l => simp at hb
    subst hts
    constructor
    · intro _
      exact ⟨[], s, rfl, by simp [tokensMatchFull]⟩
    · intro _
      simp [tokensMatchFrom]
  | succ n ih =>
    intro ts s hb
    cases ts with
    | nil =>
      constructor
      · intro _
        exact ⟨[], s, rfl, by simp [tokensMatchFull]⟩
      · intro _
        simp [tokensMatchFrom]
    | cons t ts' =>
      cases t with
      | lit c =>
        cases s with
        | nil =>
          constructor
          · intro h
            simp [tokensMatchFrom] at h
          · rintro ⟨p, q, hpq, hfull⟩
            have hp : p = [] := (List.append_eq_nil.mp hpq.symm).1
            subst hp
            simp [tokensMatchFull] at hfull
        | cons x xs =>
          have hb' : ts'.length + xs.length ≤ n := by
            simp only [List.length_cons] at hb
            omega
          constructor
          · intro h
            simp only [tokensMatchFrom, Bool.and_eq_true] at h
            obtain ⟨hcx, hm⟩ := h
            obtain ⟨p, q, hpq, hfull⟩ := (ih ts' xs hb').mp hm
            exact ⟨x :: p, q, by simp [hpq],
              by simp [tokensMatchFull, hcx, hfull]⟩
          · rintro ⟨p, q, hpq, hfull⟩
            cases p with
            | nil => simp [tokensMatchFull] at hfull
            | cons y p' =>
              rw [List.cons_append] at hpq
              injection hpq with hxy hxs
              subst hxy
              simp only [tokensMatchFull, Bool.and_eq_true] at hfull
              obtain ⟨hcx, hfull'⟩ := hfull
              have hm := (ih ts' xs hb').mpr ⟨p', q, hxs, hfull'⟩
              simp [tokensMatchFrom, hcx, hm]
      | anyChar =>
        cases s with
        | nil =>
          constructor
          · intro h
            simp [tokensMatchFrom] at h
          · rintro ⟨p, q, hpq, hfull⟩
            have hp : p = [] := (List.append_eq_nil.mp hpq.symm).1
            subst hp
            simp [tokensMatchFull] at hfull
        | cons x xs =>
          have hb' : ts'.length + xs.length ≤ n := by
            simp only [List.length_cons] at hb
            omega
          constructor
          · intro h
            simp only [tokensMatchFrom, Bool.and_eq_true] at h
            obtain ⟨hcx, hm⟩ := h
            obtain ⟨p, q, hpq, hfull⟩ := (ih ts' xs hb').mp hm
            exact ⟨x :: p, q, by simp [hpq],
              by simp [tokensMatchFull, hcx, hfull]⟩
          · rintro ⟨p, q, hpq, hfull⟩
            cases p with
            | nil => simp [tokensMatchFull] at hfull
            | cons y p' =>
              rw [List.cons_append] at hpq
              injection hpq with hxy hxs
              subst hxy
              simp only [tokensMatchFull, Bool.and_eq_true] at hfull
              obtain ⟨hcx, hfull'⟩ := hfull
              have hm := (ih ts' xs hb').mpr ⟨p', q, hxs, hfull'⟩
              simp [tokensMatchFrom, hcx, hm]
      | star =>
        have hbts : ts'.length + s.length ≤ n := by
          simp only [List.length_cons] at hb
          omega
        cases s with
        | nil =>
          constructor
          · intro h
            have h' : tokensMatchFrom ts' [] = true := by
              simpa [tokensMatchFrom] using h
            obtain ⟨p, q, hpq, hfull⟩ := (ih ts' [] hbts).mp h'
            have hp : p = [] := (List.append_eq_nil.mp hpq.symm).1
            subst hp
            exact ⟨[], [], rfl, by simp [tokensMatchFull, hfull]⟩
          · rintro ⟨p, q, hpq, hfull⟩
            have hp : p = [] := (List.append_eq_nil.mp hpq.symm).1
            subst hp
            have hfull' : tokensMatchFull ts' [] = true := by
              simpa [tokensMatchFull] using hfull
            have hm := (ih ts' [] hbts).mpr ⟨[], [], rfl, hfull'⟩
            simp [tokensMatchFrom, hm]
        | cons x xs =>
          constructor
          · intro h
            simp only [tokensMatchFrom, Bool.or_eq_true, Bool.and_eq_true] at h
            rcases h with h | ⟨hx, hm⟩
            · obtain ⟨p, q, hpq, hfull⟩ := (ih ts' (x :: xs) hbts).mp h
              refine ⟨p, q, hpq, ?_⟩
              cases p with
              | nil => simp [tokensMatchFull, hfull] at hfull ⊢
              | cons y p' => simp [tokensMatchFull, hfull]
            · have hb'' : (GlobTok.star :: ts').length + xs.length ≤ n := by
                simp only [List.length_cons] at hb ⊢
                omega
              obtain ⟨p, q, hpq, hfull⟩ := (ih (.star :: ts') xs hb'').mp hm
              refine ⟨x :: p, q, by simp [hpq], ?_⟩
              simp only [tokensMatchFull, Bool.or_eq_true, Bool.and_eq_true]
              exact Or.inr ⟨hx, hfull⟩
          · rintro ⟨p, q, hpq, hfull⟩
            cases p with
            | nil =>
              have hfull' : tokensMatchFull ts' [] = true := by
                simpa [tokensMatchFull] using hfull
              have hm := (ih ts' (x :: xs) hbts).mpr ⟨[], x :: xs, by simp [hpq], hfull'⟩
              simp [tokensMatchFrom, hm]
            | cons y p' =>
              rw [List.cons_append] at hpq
              injection hpq with hxy hxs
              subst hxy
              simp only [tokensMatchFull, Bool.or_eq_true, Bool.and_eq_true] at hfull
              rcases hfull with hfull | ⟨hy, hfull'⟩
              · have hm := (ih ts' (x :: xs) hbts).mpr ⟨x :: p', q, by simp [hxs], hfull⟩
                simp [tokensMatchFrom, hm]
              · subst hxs
                have hb'' : (GlobTok.star :: ts').length + (p' ++ q).length ≤ n := by
                  simp only [List.length_cons, List.length_append] at hb ⊢
                  omega
                have hm := (ih (.star :: ts') (p' ++ q) hb'').mpr ⟨p', q, rfl, hfull'⟩
                simp only [tokensMatchFrom, Bool.or_eq_true, Bool.and_eq_true]
                exact Or.inr ⟨hy, hm⟩

/-- `re.match` matches iff the tokens fully match some prefix. -/
theorem tokensMatchFrom_iff_prefixFull (ts : List GlobTok) (s : List Char) :
    tokensMatchFrom ts s = true ↔
      ∃ p q : List Char, s = p ++ q ∧ tokensMatchFull ts p = true :=
  tokensMatchFrom_iff_prefixFull_bounded (ts.length + s.length) ts s (le_refl _)

/-- C5 counterexample.  The exclude pattern `*.py` does not glob-match the
relative path `x.pyc` (the spec's whole-path reading), yet the traversal
omits `x.pyc`: `re.match` anchors only at the start, so the translated
regex `.*\.py` matching the prefix `x.py` suffices — refuting the "if and
only if" as stated. -/
theorem traversal_excludes_nonmatching_file :
    globSpecMatch "*.py".data "x.pyc".data = false ∧
    patternExcludes "*.py" "x.pyc" = true ∧
    traverseFilter ["*.py"] ["x.pyc"] = [] := by
  refine ⟨?_, ?_, ?_⟩
  · simp [globSpecMatch, charEqCI]
  · simp [patternExcludes, translateChars, tokensOfRegex, tokensMatchFrom, charEqCI]
  · simp [traverseFilter, patternExcludes, translateChars, tokensOfRegex, tokensMatchFrom,
      charEqCI]

/-- C5 (amended).  For exclude patterns built from `*`, `?` and
regex-ordinary characters, the traversal omits a regular file if and only
if some pattern — read as a glob whose `*` matches any run of non-newline
characters and `?` one non-newline character, case-insensitively — matches
a *prefix* of the file's path relative to the root (`re.match` anchors only
at the start of the string). -/
theorem traverseFilter_omits_iff_prefix_glob
    (excludes : List String) (relPaths : List String) (f : String)
    (hok : ∀ pat ∈ excludes, patternOk pat = true) (hf : f ∈ relPaths) :
    f ∉ traverseFilter excludes relPaths ↔
      ∃ pat ∈ excludes, ∃ p q : List Char, f.data = p ++ q ∧
        tokensMatchFull (directTokens pat.data) p = true := by
  have hmem : f ∈ traverseFilter excludes relPaths ↔
      (excludes.any (fun pat => patternExcludes pat f) = false) := by
    rw [traverseFilter, List.mem_filter]
    constructor
    · rintro ⟨_, h⟩
      simpa using h
    · intro h
      exact ⟨hf, by simpa using h⟩
  constructor
  · intro h
    have hany : excludes.any (fun pat => patternExcludes pat f) = true := by
      by_contra hc
      exact h (hmem.mpr (Bool.eq_false_iff.mpr hc))
    obtain ⟨pat, hpat, hex⟩ := List.any_eq_true.mp hany
    rw [patternExcludes, tokensOfRegex_translate pat.data (hok pat hpat)] at hex
    obtain ⟨p, q, hpq, hfull⟩ := (tokensMatchFrom_iff_prefixFull _ _).mp hex
    exact ⟨pat, hpat, p, q, hpq, hfull⟩
  · rintro ⟨pat, hpat, p, q, hpq, hfull⟩ hin
    have hex : patternExcludes pat f = true := by
      rw [patternExcludes, tokensOfRegex_translate pat.data (hok pat hpat)]
      exact (tokensMatchFrom_iff_prefixFull _ _).mpr ⟨p, q, hpq, hfull⟩
    have hany : excludes.any (fun pat => patternExcludes pat f) = true :=
      List.any_eq_true.mpr ⟨pat, hpat, hex⟩
    rw [hmem.mp hin] at hany
    exact Bool.false_ne_true hany

/-- Witness for C5 (amended): pattern `*.py` against file `x.pyc` — the file
is omitted, and indeed the glob tokens of `*.py` fully match the prefix
`x.py`. -/
theorem traverseFilter_omits_iff_prefix_glob_witness :
    "x.pyc" ∉ traverseFilter ["*.py"] ["x.pyc"] ↔
      ∃ pat ∈ ["*.py"], ∃ p q : List Char, "x.pyc".data = p ++ q ∧
        tokensMatchFull (directTokens pat.data) p = true :=
  traverseFilter_omits_iff_prefix_glob ["*.py"] ["x.pyc"] "x.pyc"
    (by intro pat hpat; fin_cases hpat; decide) (by simp)

/-! ## C9 theorems -/

/-- C9.  If the chunk stream raises mid-stream, `async_file_writer`
propagates the exception and afterwards neither the temp file nor the
destination file exists, and a pre-existing destination file is unchanged
byte for byte; on success the full concatenation of the chunks sits at the
destination (written via the sibling temp file, which is gone after the
rename), so the destination is never partially present. -/
theorem asyncFileWriter_atomic (fs : FileSystem) (tmpPath destPath : String)
    (stream : ChunkStream) (hne : tmpPath ≠ destPath) :
    (stream.fails = true →
      (asyncFileWriter fs tmpPath destPath stream).1 = .error () ∧
      (asyncFileWriter fs tmpPath destPath stream).2 tmpPath = none ∧
      (asyncFileWriter fs tmpPath destPath stream).2 destPath = fs destPath) ∧
    (stream.fails = false →
      (asyncFileWriter fs tmpPath destPath stream).1 = .ok stream.chunks.flatten.length ∧
      (asyncFileWriter fs tmpPath destPath stream).2 destPath = some stream.chunks.flatten ∧
      (asyncFileWriter fs tmpPath destPath stream).2 tmpPath = none) := by
  have hds : destPath ≠ tmpPath := fun h => hne h.symm
  constructor
  · intro hfail
    refine ⟨?_, ?_, ?_⟩ <;>
      simp [asyncFileWriter, hfail, FileSystem.unlink, FileSystem.write, hds]
  · intro hok
    refine ⟨?_, ?_, ?_⟩ <;>
      simp [asyncFileWriter, hok, FileSystem.rename, FileSystem.write, hne, hds]

/-- Witness for C9: destination `/d/out` pre-populated with byte `9`; a
failing stream leaves `/d/out` intact and no temp file; a successful stream
replaces it with `[1, 2]`. -/
theorem asyncFileWriter_atomic_witness :
    ((asyncFileWriter (fun p => if p = "/d/out" then some [9] else none)
        "/d/.download-x.tmp" "/d/out" ⟨[[1], [2]], true⟩).1 = .error () ∧
      (asyncFileWriter (fun p => if p = "/d/out" then some [9] else none)
        "/d/.download-x.tmp" "/d/out" ⟨[[1], [2]], true⟩).2 "/d/.download-x.tmp" = none ∧
      (asyncFileWriter (fun p => if p = "/d/out" then some [9] else none)
        "/d/.download-x.tmp" "/d/out" ⟨[[1], [2]], true⟩).2 "/d/out" = some [9]) ∧
    (asyncFileWriter (fun p => if p = "/d/out" then some [9] else none)
        "/d/.download-x.tmp" "/d/out" ⟨[[1], [2]], false⟩).2 "/d/out" = some [1, 2] := by
  have h₁ := asyncFileWriter_atomic (fun p => if p = "/d/out" then some [9] else none)
    "/d/.download-x.tmp" "/d/out" ⟨[[1], [2]], true⟩ (by decide)
  have h₂ := asyncFileWriter_atomic (fun p => if p = "/d/out" then some [9] else none)
    "/d/.download-x.tmp" "/d/out" ⟨[[1], [2]], false⟩ (by decide)
  have ha := h₁.1 rfl
  have hb := h₂.2 rfl
  exact ⟨⟨ha.1, ha.2.1, ha.2.2⟩, hb.2.1⟩

end ContreeSpec
